import Mathlib

/-!
Verification of the mp-cleaner normalization core.

This file gives a shallow embedding of the parsing and import-reconciliation
core of the repository (backend/internal/parser, backend/internal/application,
backend/internal/adapters/repository/sqlite) and proves properties about it.

Modelling conventions:
* Go strings are modelled as Lean `String` / `List Char`; the helpers from the
  Go standard library that the code uses (TrimSpace, TrimPrefix, ReplaceAll of
  single characters, Index/truncation, Count, Contains, ToUpper/ToLower) are
  modelled for the ASCII range that the data formats use.
* Go float64 amounts are modelled as exact rationals; IEEE rounding of values
  beyond 53 bits of precision is out of scope of the model.
* `time.Time` values produced by the parsers are calendar dates; they are
  modelled as integer day numbers relative to the spreadsheet epoch
  1899-12-30 (the epoch used by the Santander parser).  Parsing a civil date
  uses a day-count formula for the proleptic Gregorian calendar.
* The CSV decode step (encoding/csv) and the xlsx decode step (excelize) are
  external collaborators; the parsers are modelled from the point where the
  Go code has a `[][]string` of rows, as the spec describes.
-/

namespace MPClean

instance {ε α : Type} [DecidableEq ε] [DecidableEq α] : DecidableEq (Except ε α) :=
  fun x y =>
    match x, y with
    | .ok a, .ok b =>
        if h : a = b then isTrue (by rw [h]) else isFalse (fun hc => h (Except.ok.inj hc))
    | .error a, .error b =>
        if h : a = b then isTrue (by rw [h]) else isFalse (fun hc => h (Except.error.inj hc))
    | .ok _, .error _ => isFalse (fun hc => Except.noConfusion hc)
    | .error _, .ok _ => isFalse (fun hc => Except.noConfusion hc)

/-- Models Go `unicode.IsSpace` restricted to the ASCII whitespace characters
(space, tab, newline, vertical tab, form feed, carriage return). -/
def goIsSpace (c : Char) : Bool :=
  c = ' ' || c = '\t' || c = '\n' || c = '\x0b' || c = '\x0c' || c = '\r'

/-- Models Go `strings.TrimSpace` on the character list of a string. -/
def trimChars (cs : List Char) : List Char :=
  ((cs.dropWhile goIsSpace).reverse.dropWhile goIsSpace).reverse

/-- Models Go `strings.TrimSpace`. -/
def trimStr (s : String) : String :=
  String.mk (trimChars s.data)

/-- Models Go `strings.TrimPrefix`. -/
def goTrimPrefix (s p : String) : String :=
  if p.data.isPrefixOf s.data then String.mk (s.data.drop p.data.length) else s

/-- Models Go `strings.ToUpper` for ASCII data. -/
def goToUpper (s : String) : String :=
  String.mk (s.data.map Char.toUpper)

/-- Models Go `strings.Count` for a single separator character: the number of
occurrences of that character in the string. -/
def goCount (s : String) (c : Char) : Nat :=
  s.data.count c

/-- Numeric value of a decimal digit character. -/
def digitVal (c : Char) : Nat := c.toNat - 48

/-- Value of a list of decimal digit characters read in base 10. -/
def digitsVal (cs : List Char) : Nat :=
  cs.foldl (fun a c => 10 * a + digitVal c) 0

/-- All characters are decimal digits. -/
def allDigits (cs : List Char) : Bool := cs.all (fun c => c.isDigit)

/-- Mantissa part of Go `strconv.ParseFloat`: digits with at most one point,
at least one digit in total.  Returns the integer digits and the fraction
digits. -/
def splitMantissa (cs : List Char) : Option (List Char × List Char) :=
  let ip := cs.takeWhile (fun c => c ≠ '.')
  match cs.dropWhile (fun c => c ≠ '.') with
  | [] => if ip ≠ [] ∧ allDigits ip then some (ip, []) else none
  | _ :: fp =>
      if allDigits ip ∧ allDigits fp ∧ (ip ≠ [] ∨ fp ≠ []) then some (ip, fp)
      else none

/-- Exponent part of Go `strconv.ParseFloat`: optional sign, then a nonempty
run of digits. -/
def parseExpDigits (cs : List Char) : Option ℤ :=
  if cs.head? = some '-' then
    if cs.tail ≠ [] ∧ allDigits cs.tail then some (-(digitsVal cs.tail : ℤ)) else none
  else if cs.head? = some '+' then
    if cs.tail ≠ [] ∧ allDigits cs.tail then some ((digitsVal cs.tail : ℤ)) else none
  else if cs ≠ [] ∧ allDigits cs then some ((digitsVal cs : ℤ)) else none

/-- The exact rational value of a decimal number with integer digits `ip`,
fraction digits `fp` and decimal exponent `e`, built with `Rat.divInt` so
that it evaluates by kernel reduction. -/
def decValue (ip fp : List Char) (e : ℤ) : ℚ :=
  if 0 ≤ e then
    Rat.divInt ((digitsVal ip * 10 ^ fp.length + digitsVal fp) * 10 ^ e.toNat : ℕ)
      ((10 ^ fp.length : ℕ))
  else
    Rat.divInt ((digitsVal ip * 10 ^ fp.length + digitsVal fp : ℕ))
      ((10 ^ fp.length * 10 ^ (-e).toNat : ℕ))

/-- Models Go `strconv.ParseFloat` on the decimal forms the repository can
feed it: optional sign, decimal mantissa, optional decimal exponent.  The
exotic inputs ParseFloat also accepts (hex floats, inf, NaN, digit
underscores) cannot be produced by the cleaning steps on the data formats
considered here and are not modelled.  The result is the exact rational
value of the decimal string. -/
def goParseFloat (cs : List Char) : Option ℚ :=
  let neg := cs.head? = some '-'
  let cs1 := if cs.head? = some '-' ∨ cs.head? = some '+' then cs.tail else cs
  let m := cs1.takeWhile (fun c => ¬(c = 'e' ∨ c = 'E'))
  let q? : Option ℚ :=
    match cs1.dropWhile (fun c => ¬(c = 'e' ∨ c = 'E')) with
    | [] => (splitMantissa m).map (fun p => decValue p.1 p.2 0)
    | _ :: er =>
      match splitMantissa m, parseExpDigits er with
      | some p, some e => some (decValue p.1 p.2 e)
      | _, _ => none
  q?.map (fun q => if neg then -q else q)

/-- Models `parseArgentineAmount` (mercadopago.go): strip spaces, detect and
strip one leading minus sign, remove all dots, truncate at the first comma
(decimals are discarded), parse, reapply the sign. -/
def parseArgentineAmount (s : String) : Except String ℚ :=
  if s = "" then .error "empty amount" else
  let cs := s.data.filter (fun c => c ≠ ' ')
  let isNeg := cs.head? = some '-'
  let cs1 := if cs.head? = some '-' then cs.tail else cs
  let cs2 := cs1.filter (fun c => c ≠ '.')
  let cs3 := cs2.takeWhile (fun c => c ≠ ',')
  match goParseFloat cs3 with
  | none => .error "failed to parse amount"
  | some q => .ok (if isNeg then -q else q)

/-- Models `parseSantanderAmount` (santander.go): strip the currency marker
characters and spaces, trim, detect and strip one leading minus sign, remove
dots (thousands separators), turn the comma into a decimal point, parse,
reapply the sign. -/
def parseSantanderAmount (s : String) : Except String ℚ :=
  if s = "" then .error "empty amount" else
  let cs := ((((s.data.filter (fun c => c ≠ '$')).filter (fun c => c ≠ 'U')).filter
      (fun c => c ≠ 'D')).filter (fun c => c ≠ 'S')).filter (fun c => c ≠ ' ')
  let cs0 := trimChars cs
  if cs0 = [] then .error "empty amount after cleaning" else
  let isNeg := cs0.head? = some '-'
  let cs1 := if cs0.head? = some '-' then cs0.tail else cs0
  let cs2 := cs1.filter (fun c => c ≠ '.')
  let cs3 := cs2.map (fun c => if c = ',' then '.' else c)
  match goParseFloat cs3 with
  | none => .error "failed to parse amount"
  | some q => .ok (if isNeg then -q else q)

example : parseArgentineAmount "1.809,99" = .ok 1809 := by decide
example : parseArgentineAmount "-24.000,00" = .ok (-24000) := by decide
example : parseArgentineAmount "abc" = .error "failed to parse amount" := by decide
example : parseArgentineAmount "0,99" = .ok 0 := by decide
example : parseSantanderAmount "$28.640,00" = .ok 28640 := by decide
example : parseSantanderAmount "US$-29,34" = .ok (-(Rat.divInt 2934 100)) := by decide
example : parseSantanderAmount "U$D4,82" = .ok (Rat.divInt 482 100) := by decide
example : parseSantanderAmount "-24.000,50" = .ok (-(Rat.divInt 2400050 100)) := by decide

/-! ### Dates

`time.Time` values are modelled as integer day numbers relative to the
spreadsheet epoch 1899-12-30 used by `parseDate` in santander.go.  Adding one
calendar day (`AddDate(0, 0, 1)`) is `+ 1` on day numbers. -/

/-- Proleptic Gregorian leap year, as in Go `time`. -/
def isLeapYear (y : Nat) : Bool :=
  y % 4 = 0 && (y % 100 ≠ 0 || y % 400 = 0)

/-- Number of leap years `z` with `0 ≤ z < y`. -/
def leapsBefore (y : Nat) : Nat :=
  (y + 3) / 4 - (y + 99) / 100 + (y + 399) / 400

/-- Days in the months before month `m` (1-based) of a year. -/
def monthDaysBefore (leap : Bool) (m : Nat) : Nat :=
  [0, 31, 59, 90, 120, 151, 181, 212, 243, 273, 304, 334].getD (m - 1) 0 +
    (if leap ∧ 3 ≤ m then 1 else 0)

/-- Number of days of month `m` (1-based) of year `y`, as validated by Go
`time.Parse` ("day out of range"). -/
def daysInMonth (y m : Nat) : Nat :=
  [31, if isLeapYear y then 29 else 28, 31, 30, 31, 30, 31, 31, 30, 31, 30, 31].getD (m - 1) 0

/-- Absolute day number of the civil date `y-m-d` counted from 0000-01-01. -/
def absDayNum (y m d : Nat) : Nat :=
  365 * y + leapsBefore y + monthDaysBefore (isLeapYear y) m + (d - 1)

/-- Day number of a civil date relative to the spreadsheet epoch 1899-12-30. -/
def daysSinceExcelEpoch (y m d : Nat) : ℤ :=
  (absDayNum y m d : ℤ) - (absDayNum 1899 12 30 : ℤ)

/-- The Go zero `time.Time` (January 1 of year 1) as a day number; parseSection
uses it (via `IsZero`) as the sentinel for "no valid date seen yet". -/
def zeroTimeDays : ℤ := daysSinceExcelEpoch 1 1 1

/-- Truncation of a rational toward zero, as in the Go conversion
`int(excelDate)`. -/
def intTrunc (q : ℚ) : ℤ := if 0 ≤ q then ⌊q⌋ else ⌈q⌉

/-- Models `time.Parse("02-01-2006", s)` from the MercadoPago parser: exactly
two day digits, a dash, two month digits, a dash, four year digits, with the
month and the day-of-month validated. -/
def parseMPDate (s : String) : Option ℤ :=
  match s.data with
  | [d1, d2, s1, m1, m2, s2, y1, y2, y3, y4] =>
    if s1 = '-' ∧ s2 = '-' ∧ allDigits [d1, d2, m1, m2, y1, y2, y3, y4] then
      let day := digitsVal [d1, d2]
      let month := digitsVal [m1, m2]
      let year := digitsVal [y1, y2, y3, y4]
      if 1 ≤ month ∧ month ≤ 12 ∧ 1 ≤ day ∧ day ≤ daysInMonth year month then
        some (daysSinceExcelEpoch year month day)
      else none
    else none
  | _ => none

/-- Models `time.Parse("02/01/2006", s)`, the first branch of `parseDate` in
santander.go. -/
def parseSlashDate (s : String) : Option ℤ :=
  match s.data with
  | [d1, d2, s1, m1, m2, s2, y1, y2, y3, y4] =>
    if s1 = '/' ∧ s2 = '/' ∧ allDigits [d1, d2, m1, m2, y1, y2, y3, y4] then
      let day := digitsVal [d1, d2]
      let month := digitsVal [m1, m2]
      let year := digitsVal [y1, y2, y3, y4]
      if 1 ≤ month ∧ month ≤ 12 ∧ 1 ≤ day ∧ day ≤ daysInMonth year month then
        some (daysSinceExcelEpoch year month day)
      else none
    else none
  | _ => none

/-- Models `parseDate` (santander.go): try DD/MM/YYYY when the string has a
slash; otherwise, or on failure, try a spreadsheet serial day number
(ParseFloat, truncated, counted from the 1899-12-30 epoch). -/
def parseSantanderDate (s : String) : Option ℤ :=
  match (if s.data.contains '/' then parseSlashDate s else none) with
  | some d => some d
  | none => (goParseFloat s.data).map intTrunc

example : parseMPDate "22-07-2025" = some (daysSinceExcelEpoch 2025 7 22) := by decide
example : parseMPDate "2-7-2025" = none := by decide
example : parseMPDate "30-02-2025" = none := by decide
example : parseSantanderDate "01/06/2024" = some (daysSinceExcelEpoch 2024 6 1) := by decide
example : parseSantanderDate "45000" = some 45000 := by decide

/-! ### The record data model -/

/-- Models `domain.Currency`: exactly ARS and USD. -/
inductive Currency where
  | ARS
  | USD
deriving DecidableEq, Repr

/-- Models `domain.Record` restricted to the fields the core populates and
compares: date, description, amount, currency, accountId.  The persistence
bookkeeping fields (ID, Category, CreatedAt) play no role in parsing or in
the duplicate rule and are not modelled. -/
structure Record where
  date : ℤ
  description : String
  amount : ℚ
  currency : Currency
  accountId : String
deriving DecidableEq, Repr

/-- Models `domain.RecordBatch`. -/
structure RecordBatch where
  records : List Record
  provider : String
  currency : Currency
deriving DecidableEq, Repr

/-! ### MercadoPago CSV parser (mercadopago.go)

The `encoding/csv` decode step is an external collaborator; the parser is
modelled from the `[][]string` row matrix it produces.  Separator detection
happens before that decode, on the raw content string, and is modelled
separately on that string. -/

/-- Models the separator detection of `MercadoPagoParser.Parse`: semicolon
exactly when semicolons strictly outnumber commas in the raw content,
otherwise comma. -/
def detectSeparator (content : String) : Char :=
  if goCount content ';' > goCount content ',' then ';' else ','

/-- Models `findColumn`: index of the first header equal (case-insensitively,
after trimming) to the wanted name; `none` models the -1 result. -/
def findColumn (headers : List String) (name : String) : Option Nat :=
  let key := goToUpper (trimStr name)
  headers.findIdx? (fun h => goToUpper (trimStr h) = key)

/-- Models the transaction-type cleaning in `MercadoPagoParser.Parse`: trim,
strip the literal prefixes "Transferencia enviada" and "Transferencia
recibida", trim again. -/
def cleanTransactionType (raw : String) : String :=
  trimStr (goTrimPrefix (goTrimPrefix (trimStr raw) "Transferencia enviada")
    "Transferencia recibida")

/-- Models the description building in `MercadoPagoParser.Parse`: the cleaned
type, overwritten by `"{type} - {referenceID}"` whenever the reference id is
nonempty. -/
def buildMPDescription (transactionType referenceID : String) : String :=
  if referenceID ≠ "" then transactionType ++ " - " ++ referenceID else transactionType

/-- Models one iteration of the data-row loop of `MercadoPagoParser.Parse`
(for the row with 1-based file row number `rowNum = i + 5`): `.ok none` when
the row is skipped, `.ok (some r)` when it yields a record, `.error` when it
aborts the whole parse. -/
def processMPRow (dateCol typeCol refCol amountCol : Nat) (accountID : String)
    (rowNum : Nat) (row : List String) : Except String (Option Record) :=
  if row.length = 0 ∨ trimStr (row.headD "") = "" then .ok none
  else if row.length ≤ max (max dateCol typeCol) (max refCol amountCol) then .ok none
  else
    let dateStr := trimStr (row.getD dateCol "")
    if dateStr = "" then .ok none
    else
      match parseMPDate dateStr with
      | none => .error ("failed to parse date in row " ++ toString rowNum)
      | some d =>
        let date := d + 1
        let transactionType := cleanTransactionType (row.getD typeCol "")
        let referenceID := trimStr (row.getD refCol "")
        let description := buildMPDescription transactionType referenceID
        if description = "" ∨ description = " - " then .ok none
        else
          match parseArgentineAmount (trimStr (row.getD amountCol "")) with
          | .error e => .error ("failed to parse amount in row " ++ toString rowNum ++ ": " ++ e)
          | .ok amount => .ok (some ⟨date, description, amount, Currency.ARS, accountID⟩)

/-- The data-row loop of `MercadoPagoParser.Parse`: processes rows in order
starting at file row number `rowNum`; a row error aborts the whole loop. -/
def mpProcessRows (dateCol typeCol refCol amountCol : Nat) (accountID : String) :
    Nat → List (List String) → Except String (List Record)
  | _, [] => .ok []
  | rowNum, row :: rest =>
    match processMPRow dateCol typeCol refCol amountCol accountID rowNum row with
    | .error e => .error e
    | .ok none => mpProcessRows dateCol typeCol refCol amountCol accountID (rowNum + 1) rest
    | .ok (some r) =>
      match mpProcessRows dateCol typeCol refCol amountCol accountID (rowNum + 1) rest with
      | .error e => .error e
      | .ok rs => .ok (r :: rs)

/-- Models `MercadoPagoParser.Parse` on the decoded row matrix: at least 5
rows, row index 3 is the header row, data starts at row index 4; the four
named columns are required; data rows are processed in order. -/
def mercadoPagoParse (rows : List (List String)) (accountID : String) :
    Except String RecordBatch :=
  if rows.length < 5 then
    .error ("invalid MercadoPago file: expected at least 5 rows, got " ++ toString rows.length)
  else
    let headers := rows.getD 3 []
    match findColumn headers "RELEASE_DATE", findColumn headers "TRANSACTION_TYPE",
        findColumn headers "REFERENCE_ID", findColumn headers "TRANSACTION_NET_AMOUNT" with
    | some dateCol, some typeCol, some refCol, some amountCol =>
      (mpProcessRows dateCol typeCol refCol amountCol accountID 5 (rows.drop 4)).map
        (fun recs => ⟨recs, "mercadopago", Currency.ARS⟩)
    | _, _, _, _ => .error "missing required columns in MercadoPago file"

example :
    mercadoPagoParse
      [["m1"], ["m2"], ["m3"],
       ["RELEASE_DATE", "TRANSACTION_TYPE", "REFERENCE_ID", "TRANSACTION_NET_AMOUNT"],
       ["22-07-2025", "Transferencia enviada Area, Maria Lucia", "119118545859", "-24.000,00"]]
      "acc" =
    .ok ⟨[⟨daysSinceExcelEpoch 2025 7 23, "Area, Maria Lucia - 119118545859", -24000,
      Currency.ARS, "acc"⟩], "mercadopago", Currency.ARS⟩ := by decide

/-! ### Santander spreadsheet parser (santander.go)

The xlsx decode is an external collaborator; the parser is modelled from the
`[][]string` row matrix `excelize.GetRows` produces.  The claims under
verification concern `parseSection`, which is modelled here together with its
helpers; the outer sheet scan only locates section header rows and delegates
to `parseSection`. -/

/-- Models `getCellValue`: the trimmed cell, or `""` out of range. -/
def getCellValue (row : List String) (col : Nat) : String :=
  trimStr (row.getD col "")

/-- Models `isEmptyRow`: every cell trims to the empty string. -/
def isEmptyRow (row : List String) : Bool :=
  row.all (fun cell => trimStr cell == "")

/-- Splits a character list at every occurrence of `sep` (the separators are
dropped; empty groups are kept). -/
def splitOnChar (sep : Char) : List Char → List (List Char)
  | [] => [[]]
  | c :: t =>
    if c = sep then [] :: splitOnChar sep t
    else
      match splitOnChar sep t with
      | [] => [[c]]
      | g :: gs => (c :: g) :: gs

/-- Models the regexp `^\d{1,2}/\d{1,2}/\d{4}$` used by `isDateLike`. -/
def looksLikeSlashDate (s : String) : Bool :=
  match splitOnChar '/' s.data with
  | [a, b, c] =>
    allDigits a && 1 ≤ a.length && a.length ≤ 2 &&
    allDigits b && 1 ≤ b.length && b.length ≤ 2 &&
    allDigits c && c.length = 4
  | _ => false

/-- Models `isDateLike`: a DD/MM/YYYY-shaped string or anything ParseFloat
accepts (a possible spreadsheet serial). -/
def isDateLike (s : String) : Bool :=
  looksLikeSlashDate s || (goParseFloat s.data).isSome

/-- Scans for the literal `" terminada en"` with no newline before it; this is
the `.* terminada en` part of the section regexp (`.` does not match a
newline). -/
def findTermNoNewline (cs : List Char) : Bool :=
  match cs with
  | [] => false
  | c :: rest =>
    " terminada en".data.isPrefixOf (c :: rest) || (c ≠ '\n' && findTermNoNewline rest)

/-- Substring search: some suffix of `cs` starts with `pat` (models
`strings.Contains` and an unanchored regexp literal match). -/
def containsSub (cs pat : List Char) : Bool :=
  match cs with
  | [] => pat.isEmpty
  | _ :: t => pat.isPrefixOf cs || containsSub t pat

/-- The `Tarjeta de .* terminada en` alternative of the section regexp, on an
already lowercased character list. -/
def cardMatch (cs : List Char) : Bool :=
  match cs with
  | [] => false
  | _ :: t =>
    ("tarjeta de ".data.isPrefixOf cs && findTermNoNewline (cs.drop 11)) || cardMatch t

/-- Models the section-start pattern
`(?i)Pago de tarjeta y devoluciones|Tarjeta de .* terminada en` applied with
`MatchString` (unanchored, case-insensitive). -/
def sectionPatternMatch (s : String) : Bool :=
  let low := s.data.map Char.toLower
  containsSub low "pago de tarjeta y devoluciones".data || cardMatch low

example : sectionPatternMatch "Tarjeta de Crédito terminada en 1234" = true := by decide
example : sectionPatternMatch "PAGO DE TARJETA Y DEVOLUCIONES" = true := by decide
example : sectionPatternMatch "01/06/2024" = false := by decide

/-- Date resolution for one section row: a nonempty date cell must parse
(failure skips the row) and, shifted one day, becomes the new last valid
date; an empty date cell reuses the last valid date, unless that is still
the zero-time sentinel.  Returns the date for the row and the updated last
valid date. -/
def resolveDate (dateStr : String) (lastValid : ℤ) : Option (ℤ × ℤ) :=
  if dateStr ≠ "" then
    match parseSantanderDate dateStr with
    | none => none
    | some d => some (d + 1, d + 1)
  else if lastValid = zeroTimeDays then none
  else some (lastValid, lastValid)

/-- Models the description joining in `parseSection`: the nonempty ones of
description, cuotas, comprobante joined with `" - "`. -/
def buildSantanderDesc (row : List String) (descCol cuotasCol comprobanteCol : Nat) : String :=
  String.intercalate " - "
    ((if getCellValue row descCol ≠ "" then [getCellValue row descCol] else []) ++
     (if getCellValue row cuotasCol ≠ "" then [getCellValue row cuotasCol] else []) ++
     (if getCellValue row comprobanteCol ≠ "" then [getCellValue row comprobanteCol] else []))

/-- Models the per-currency record emission of `parseSection`: for each of the
ARS and USD cells, a nonempty cell that parses to a nonzero amount emits one
record with the amount negated. -/
def rowAmountRecords (date : ℤ) (desc : String) (arsStr usdStr accountID : String) :
    List Record :=
  (if arsStr ≠ "" then
    match parseSantanderAmount arsStr with
    | .ok a => if a ≠ 0 then [⟨date, desc, -a, Currency.ARS, accountID⟩] else []
    | .error _ => []
  else []) ++
  (if usdStr ≠ "" then
    match parseSantanderAmount usdStr with
    | .ok a => if a ≠ 0 then [⟨date, desc, -a, Currency.USD, accountID⟩] else []
    | .error _ => []
  else [])

/-- The row loop of `parseSection`, on the row suffix starting at absolute row
index `i`: a zero-length row or a row whose first cell matches the section
pattern returns the records collected so far together with the current index;
a row with cells that all trim empty is skipped; otherwise the row is
processed and the loop continues.  Exhaustion returns the current index,
which then equals the total row count. -/
def sectionLoop (dateCol descCol cuotasCol comprobanteCol arsCol usdCol : Nat)
    (accountID : String) :
    List (List String) → Nat → ℤ → List Record × Nat
  | [], i, _ => ([], i)
  | [] :: _, i, _ => ([], i)
  | (c0 :: cells) :: rest, i, lastValid =>
    if sectionPatternMatch c0 then ([], i)
    else if isEmptyRow (c0 :: cells) then
      sectionLoop dateCol descCol cuotasCol comprobanteCol arsCol usdCol accountID
        rest (i + 1) lastValid
    else
      match resolveDate (getCellValue (c0 :: cells) dateCol) lastValid with
      | none =>
        sectionLoop dateCol descCol cuotasCol comprobanteCol arsCol usdCol accountID
          rest (i + 1) lastValid
      | some (date, lv) =>
        if buildSantanderDesc (c0 :: cells) descCol cuotasCol comprobanteCol = "" then
          sectionLoop dateCol descCol cuotasCol comprobanteCol arsCol usdCol accountID
            rest (i + 1) lv
        else
          (rowAmountRecords date
              (buildSantanderDesc (c0 :: cells) descCol cuotasCol comprobanteCol)
              (getCellValue (c0 :: cells) arsCol) (getCellValue (c0 :: cells) usdCol)
              accountID ++
            (sectionLoop dateCol descCol cuotasCol comprobanteCol arsCol usdCol accountID
              rest (i + 1) lv).1,
           (sectionLoop dateCol descCol cuotasCol comprobanteCol arsCol usdCol accountID
              rest (i + 1) lv).2)

/-- Models `SantanderParser.parseSection`: infer the column offset from the
first data row, then run the row loop from `startRow` with the zero-time
sentinel as last valid date. -/
def parseSection (rows : List (List String)) (startRow : Nat) (accountID : String) :
    List Record × Nat :=
  let firstRow := rows.getD startRow []
  let offset : Nat :=
    if startRow < rows.length ∧ firstRow.length > 1 then
      if isDateLike (getCellValue firstRow 0) then 0
      else if isDateLike (getCellValue firstRow 1) then 1
      else 0
    else 0
  sectionLoop offset (1 + offset) (2 + offset) (3 + offset) (4 + offset) (5 + offset)
    accountID (rows.drop startRow) startRow zeroTimeDays

example :
    parseSection
      [["01/06/2024", "Supermercado", "1/3", "00123", "$3.000,00", ""]] 0 "acc" =
    ([⟨daysSinceExcelEpoch 2024 6 2, "Supermercado - 1/3 - 00123", -3000,
      Currency.ARS, "acc"⟩], 1) := by decide

/-! ### Import reconciler (application.RecordService.ImportRecords)

The persistence sink is the injected `domain.RecordRepository`; the reconciler
only calls its `Exists(date, description, amount)` and `Create(record)`
operations.  It is modelled as an abstract state machine over an arbitrary
state type, so the theorems hold for every behavior of the sink. -/

/-- Models `application.ImportResult`. -/
structure ImportResult where
  totalRecords : Nat
  importedRecords : Nat
  duplicateRecords : Nat
  failedRecords : Nat
  errors : List String
deriving DecidableEq, Repr

/-- The capability set of the record sink: an existence check receiving only
the (date, description, amount) triple, and an insert. -/
structure Sink (σ : Type) where
  existsCheck : σ → ℤ → String → ℚ → Except String Bool
  create : σ → Record → Except String σ

/-- Pointwise sum of two import results (errors concatenated in order). -/
def combineRes (a b : ImportResult) : ImportResult :=
  ⟨a.totalRecords + b.totalRecords, a.importedRecords + b.importedRecords,
   a.duplicateRecords + b.duplicateRecords, a.failedRecords + b.failedRecords,
   a.errors ++ b.errors⟩

/-- Models the per-record loop of `RecordService.ImportRecords`: for each
record in order, check existence of its (date, description, amount) triple
(check error counts the record as failed and appends one error message),
skip as duplicate when it exists, otherwise insert (insert error counts it
as failed and appends one error message, success counts it as imported).  In
the Go code `TotalRecords` is set to the batch length up front; here it is
accumulated, one per visited record, which yields the same value and also
witnesses that every record is visited. -/
def importRecords (sink : Sink σ) : σ → List Record → ImportResult × σ
  | s, [] => (⟨0, 0, 0, 0, []⟩, s)
  | s, r :: rs =>
    match sink.existsCheck s r.date r.description r.amount with
    | .error e =>
      let p := importRecords sink s rs
      (combineRes ⟨1, 0, 0, 1, ["Failed to check duplicate for record: " ++ e]⟩ p.1, p.2)
    | .ok true =>
      let p := importRecords sink s rs
      (combineRes ⟨1, 0, 1, 0, []⟩ p.1, p.2)
    | .ok false =>
      match sink.create s r with
      | .error e =>
        let p := importRecords sink s rs
        (combineRes ⟨1, 0, 0, 1, ["Failed to create record: " ++ e]⟩ p.1, p.2)
      | .ok s1 =>
        let p := importRecords sink s1 rs
        (combineRes ⟨1, 1, 0, 0, []⟩ p.1, p.2)

/-! ### SQLite repository model (record_repository.go)

The records table is modelled as the list of its rows.  `Exists` is the
`COUNT(*) ... WHERE date = ? AND description = ? AND amount = ?` query;
`Create` appends a row, rejecting a violation of the
`UNIQUE(date, description, amount)` constraint with the duplicate error. -/

/-- Models `RecordRepository.Exists`. -/
def sqliteExists (tbl : List Record) (d : ℤ) (desc : String) (a : ℚ) : Bool :=
  tbl.any (fun r => decide (r.date = d ∧ r.description = desc ∧ r.amount = a))

/-- Models `RecordRepository.Create` with the UNIQUE constraint on
(date, description, amount). -/
def sqliteCreate (tbl : List Record) (r : Record) : Except String (List Record) :=
  if sqliteExists tbl r.date r.description r.amount then
    .error "duplicate record: a record with the same date, description, and amount already exists"
  else .ok (tbl ++ [r])

/-- The SQLite repository as a sink. -/
def sqliteSink : Sink (List Record) :=
  ⟨fun tbl d desc a => .ok (sqliteExists tbl d desc a), sqliteCreate⟩

/-! ### Helper lemmas on lists and characters -/

theorem takeWhile_all_eq (p : Char → Bool) :
    ∀ (l : List Char), (∀ a ∈ l, p a = true) → l.takeWhile p = l := by
  intro l h
  induction l with
  | nil => rfl
  | cons c t ih =>
    simp only [List.takeWhile_cons, h c (List.mem_cons_self c t)]
    simpa using ih (fun a ha => h a (List.mem_cons_of_mem c ha))

theorem dropWhile_all_eq_nil (p : Char → Bool) :
    ∀ (l : List Char), (∀ a ∈ l, p a = true) → l.dropWhile p = [] := by
  intro l h
  induction l with
  | nil => rfl
  | cons c t ih =>
    simp only [List.dropWhile_cons, h c (List.mem_cons_self c t)]
    simpa using ih (fun a ha => h a (List.mem_cons_of_mem c ha))

theorem dropWhile_false_eq (p : Char → Bool) :
    ∀ (l : List Char), (∀ a ∈ l, p a = false) → l.dropWhile p = l := by
  intro l h
  cases l with
  | nil => rfl
  | cons c t => simp [List.dropWhile_cons, h c (List.mem_cons_self c t)]

theorem takeWhile_append_cons (p : Char → Bool) (xs : List Char) (y : Char)
    (ys : List Char) (hxs : ∀ a ∈ xs, p a = true) (hy : p y = false) :
    (xs ++ y :: ys).takeWhile p = xs := by
  induction xs with
  | nil => simp [List.takeWhile_cons, hy]
  | cons c t ih =>
    simp only [List.cons_append, List.takeWhile_cons, hxs c (List.mem_cons_self c t)]
    simpa using ih (fun a ha => hxs a (List.mem_cons_of_mem c ha))

theorem dropWhile_append_cons (p : Char → Bool) (xs : List Char) (y : Char)
    (ys : List Char) (hxs : ∀ a ∈ xs, p a = true) (hy : p y = false) :
    (xs ++ y :: ys).dropWhile p = y :: ys := by
  induction xs with
  | nil => simp [List.dropWhile_cons, hy]
  | cons c t ih =>
    simp only [List.cons_append, List.dropWhile_cons, hxs c (List.mem_cons_self c t)]
    simpa using ih (fun a ha => hxs a (List.mem_cons_of_mem c ha))

theorem dropWhile_head_false (p : Char → Bool) :
    ∀ (l : List Char) (c : Char) (t : List Char), l.dropWhile p = c :: t → p c = false := by
  intro l
  induction l with
  | nil => intro c t h; cases h
  | cons a l2 ih =>
    intro c t h
    by_cases ha : p a = true
    · exact ih c t (by simpa [List.dropWhile_cons, ha] using h)
    · have ha2 : p a = false := by simpa using ha
      simp only [List.dropWhile_cons, ha2] at h
      simp only [Bool.false_eq_true, if_false] at h
      cases h
      exact ha2

theorem trimChars_all_space (cs : List Char) (h : trimChars cs = []) :
    ∀ c ∈ cs, goIsSpace c = true := by
  unfold trimChars at h
  have h1 : (((cs.dropWhile goIsSpace).reverse).dropWhile goIsSpace) = [] :=
    List.reverse_eq_nil_iff.mp h
  have h2 : ∀ c ∈ (cs.dropWhile goIsSpace).reverse, goIsSpace c = true :=
    List.dropWhile_eq_nil_iff.mp h1
  have h3 : ∀ c ∈ cs.dropWhile goIsSpace, goIsSpace c = true := by
    intro c hc; exact h2 c (List.mem_reverse.mpr hc)
  intro c hc
  have := List.takeWhile_append_dropWhile (p := goIsSpace) (l := cs)
  rw [← this] at hc
  rcases List.mem_append.mp hc with hc1 | hc2
  · exact List.mem_takeWhile_imp hc1
  · exact h3 c hc2

theorem trimChars_no_space (cs : List Char) (h : ∀ c ∈ cs, goIsSpace c = false) :
    trimChars cs = cs := by
  unfold trimChars
  rw [dropWhile_false_eq goIsSpace cs h]
  rw [dropWhile_false_eq goIsSpace cs.reverse (fun c hc => h c (List.mem_reverse.mp hc))]
  exact List.reverse_reverse cs

theorem trimChars_head_not_space (cs : List Char) (c : Char) (t : List Char)
    (h : trimChars cs = c :: t) : goIsSpace c = false := by
  unfold trimChars at h
  set d := cs.dropWhile goIsSpace with hd
  set u := d.reverse.dropWhile goIsSpace with hu
  have hsuf : u <:+ d.reverse := List.dropWhile_suffix goIsSpace
  have h2 : u.reverse.reverse <:+ d.reverse := by
    rw [List.reverse_reverse]; exact hsuf
  have hpre : u.reverse <+: d := List.reverse_suffix.mp h2
  rcases hpre with ⟨t2, ht2⟩
  rw [h] at ht2
  refine dropWhile_head_false goIsSpace cs c (t ++ t2) ?_
  rw [← hd, ← ht2]
  exact List.cons_append c t t2

theorem beq_false_of_space (c p : Char) (h1 : goIsSpace c = true) (h2 : goIsSpace p = false) :
    (p == c) = false := by
  cases hb : p == c
  · rfl
  · exfalso; have : p = c := eq_of_beq hb
    rw [this] at h2; rw [h1] at h2; cases h2

theorem containsSub_false_of_space (p : Char) (pt cs : List Char)
    (hp : goIsSpace p = false) (h : ∀ c ∈ cs, goIsSpace c = true) :
    containsSub cs (p :: pt) = false := by
  induction cs with
  | nil => rfl
  | cons c t ih =>
    unfold containsSub
    have hpc : (p == c) = false := beq_false_of_space c p (h c (List.mem_cons_self c t)) hp
    simp only [List.isPrefixOf, hpc, Bool.false_and, Bool.false_or]
    exact ih (fun a ha => h a (List.mem_cons_of_mem c ha))

theorem cardMatch_false_of_space (cs : List Char) (h : ∀ c ∈ cs, goIsSpace c = true) :
    cardMatch cs = false := by
  induction cs with
  | nil => rfl
  | cons c t ih =>
    unfold cardMatch
    have hpc : (('t' : Char) == c) = false :=
      beq_false_of_space c 't' (h c (List.mem_cons_self c t)) (by decide)
    simp only [List.isPrefixOf, hpc, Bool.false_and, Bool.false_or]
    exact ih (fun a ha => h a (List.mem_cons_of_mem c ha))

theorem toLower_space (c : Char) (h : goIsSpace c = true) :
    Char.toLower c = c ∧ goIsSpace (Char.toLower c) = true := by
  have hc := h
  simp only [goIsSpace, Bool.or_eq_true, decide_eq_true_eq] at hc
  rcases hc with ((((h1 | h1) | h1) | h1) | h1) | h1 <;> subst h1 <;>
    exact ⟨by decide, by decide⟩

theorem sectionPatternMatch_space (s : String) (h : ∀ c ∈ s.data, goIsSpace c = true) :
    sectionPatternMatch s = false := by
  simp only [sectionPatternMatch]
  have hlow : ∀ c ∈ s.data.map Char.toLower, goIsSpace c = true := by
    intro c hc
    rcases List.mem_map.mp hc with ⟨a, ha, hac⟩
    rw [← hac]
    exact (toLower_space a (h a ha)).2
  rw [containsSub_false_of_space 'p' _ _ (by decide) hlow,
    cardMatch_false_of_space _ hlow]
  rfl

/-! ### Digit-string and ParseFloat lemmas -/

theorem digit_ne (c d : Char) (h : c.isDigit = true) (h2 : d.isDigit = false) : c ≠ d := by
  intro he; subst he; rw [h] at h2; cases h2

theorem digitsVal_foldl (l : List Char) : ∀ (init : ℕ),
    l.foldl (fun a c => 10 * a + digitVal c) init = init * 10 ^ l.length + digitsVal l := by
  induction l with
  | nil => intro init; simp [digitsVal]
  | cons c t ih =>
    intro init
    simp only [List.foldl_cons, List.length_cons]
    rw [ih (10 * init + digitVal c)]
    have h2 : digitsVal (c :: t) = digitVal c * 10 ^ t.length + digitsVal t := by
      simp only [digitsVal, List.foldl_cons]
      rw [ih (10 * 0 + digitVal c), digitsVal]
      ring
    rw [h2]
    ring

theorem digitsVal_append (a b : List Char) :
    digitsVal (a ++ b) = digitsVal a * 10 ^ b.length + digitsVal b := by
  simp only [digitsVal, List.foldl_append]
  exact digitsVal_foldl b (digitsVal a)

theorem decValue_zero (ip fp : List Char) :
    decValue ip fp 0 = (digitsVal ip : ℚ) + (digitsVal fp : ℚ) / 10 ^ fp.length := by
  unfold decValue
  rw [if_pos (le_refl (0 : ℤ))]
  rw [Rat.divInt_eq_div]
  have h10 : ((10 : ℚ) ^ fp.length) ≠ 0 := by positivity
  push_cast
  field_simp

theorem goParseFloat_digits (ds : List Char) (hne : ds ≠ [])
    (hd : ∀ c ∈ ds, c.isDigit = true) :
    goParseFloat ds = some ((digitsVal ds : ℚ)) := by
  have hnotminus : ¬(ds.head? = some '-') := by
    cases ds with
    | nil => simp
    | cons c t =>
      simp only [List.head?_cons, Option.some.injEq]
      exact digit_ne c '-' (hd c (List.mem_cons_self c t)) (by decide)
  have hnotplus : ¬(ds.head? = some '+') := by
    cases ds with
    | nil => simp
    | cons c t =>
      simp only [List.head?_cons, Option.some.injEq]
      exact digit_ne c '+' (hd c (List.mem_cons_self c t)) (by decide)
  have htake : ds.takeWhile (fun c => decide ¬(c = 'e' ∨ c = 'E')) = ds := by
    refine takeWhile_all_eq _ ds ?_
    intro a ha
    simp only [decide_eq_true_eq]
    push_neg
    exact ⟨digit_ne a 'e' (hd a ha) (by decide), digit_ne a 'E' (hd a ha) (by decide)⟩
  have hdrop : ds.dropWhile (fun c => decide ¬(c = 'e' ∨ c = 'E')) = [] := by
    refine dropWhile_all_eq_nil _ ds ?_
    intro a ha
    simp only [decide_eq_true_eq]
    push_neg
    exact ⟨digit_ne a 'e' (hd a ha) (by decide), digit_ne a 'E' (hd a ha) (by decide)⟩
  have hsplit : splitMantissa ds = some (ds, []) := by
    have htake2 : ds.takeWhile (fun c => decide (c ≠ '.')) = ds := by
      refine takeWhile_all_eq _ ds ?_
      intro a ha
      simp only [decide_eq_true_eq]
      exact digit_ne a '.' (hd a ha) (by decide)
    have hdrop2 : ds.dropWhile (fun c => decide (c ≠ '.')) = [] := by
      refine dropWhile_all_eq_nil _ ds ?_
      intro a ha
      simp only [decide_eq_true_eq]
      exact digit_ne a '.' (hd a ha) (by decide)
    simp only [splitMantissa, htake2, hdrop2]
    rw [if_pos ⟨hne, by simpa [allDigits, List.all_eq_true] using hd⟩]
  simp only [goParseFloat, hnotminus, hnotplus, or_self, if_false, htake, hdrop, hsplit,
    if_neg hnotminus, Option.map_some, Option.map_map]
  have hval : decValue ds [] 0 = (digitsVal ds : ℚ) := by
    rw [decValue_zero]
    simp [digitsVal]
  simp [hval, if_neg hnotminus]

theorem goParseFloat_point (ip fp : List Char) (hne : ip ≠ [])
    (hip : ∀ c ∈ ip, c.isDigit = true) (hfp : ∀ c ∈ fp, c.isDigit = true) :
    goParseFloat (ip ++ '.' :: fp) =
      some ((digitsVal ip : ℚ) + (digitsVal fp : ℚ) / 10 ^ fp.length) := by
  have hdigne : ∀ (x : Char), x.isDigit = true → ∀ (d : Char), d.isDigit = false → x ≠ d :=
    fun x hx d hdd => digit_ne x d hx hdd
  have hall : ∀ c ∈ ip ++ '.' :: fp, (c.isDigit = true ∨ c = '.') := by
    intro c hc
    rcases List.mem_append.mp hc with hc1 | hc2
    · exact Or.inl (hip c hc1)
    · rcases List.mem_cons.mp hc2 with hc3 | hc4
      · exact Or.inr hc3
      · exact Or.inl (hfp c hc4)
  have hnotminus : ¬((ip ++ '.' :: fp).head? = some '-') := by
    cases ip with
    | nil => cases hne rfl
    | cons c t =>
      simp only [List.cons_append, List.head?_cons, Option.some.injEq]
      exact digit_ne c '-' (hip c (List.mem_cons_self c t)) (by decide)
  have hnotplus : ¬((ip ++ '.' :: fp).head? = some '+') := by
    cases ip with
    | nil => cases hne rfl
    | cons c t =>
      simp only [List.cons_append, List.head?_cons, Option.some.injEq]
      exact digit_ne c '+' (hip c (List.mem_cons_self c t)) (by decide)
  have hpe : ∀ c ∈ ip ++ '.' :: fp, (fun c => decide ¬(c = 'e' ∨ c = 'E')) c = true := by
    intro a ha
    simp only [decide_eq_true_eq]
    push_neg
    rcases hall a ha with h1 | h1
    · exact ⟨digit_ne a 'e' h1 (by decide), digit_ne a 'E' h1 (by decide)⟩
    · subst h1; exact ⟨by decide, by decide⟩
  have htake := takeWhile_all_eq _ (ip ++ '.' :: fp) hpe
  have hdrop := dropWhile_all_eq_nil _ (ip ++ '.' :: fp) hpe
  have hsplit : splitMantissa (ip ++ '.' :: fp) = some (ip, fp) := by
    have hip2 : ∀ a ∈ ip, (fun c => decide (c ≠ '.')) a = true := by
      intro a ha
      simp only [decide_eq_true_eq]
      exact digit_ne a '.' (hip a ha) (by decide)
    have htake2 : (ip ++ '.' :: fp).takeWhile (fun c => decide (c ≠ '.')) = ip :=
      takeWhile_append_cons _ ip '.' fp hip2 (by simp)
    have hdrop2 : (ip ++ '.' :: fp).dropWhile (fun c => decide (c ≠ '.')) = '.' :: fp :=
      dropWhile_append_cons _ ip '.' fp hip2 (by simp)
    simp only [splitMantissa, htake2, hdrop2]
    rw [if_pos ⟨by simpa [allDigits, List.all_eq_true] using hip,
      by simpa [allDigits, List.all_eq_true] using hfp, Or.inl hne⟩]
  simp only [goParseFloat, hnotminus, hnotplus, or_self, if_false, htake, hdrop, hsplit,
    Option.map_some]
  simp [decValue_zero]

/-! ### Claim theorems -/

/-- C8: for every raw CSV content string, the MercadoPago parser picks the
semicolon separator iff semicolons strictly outnumber commas in the whole
content; otherwise (ties included) it picks the comma. -/
theorem mp_separator_choice (s : String) :
    (detectSeparator s = ';' ↔ goCount s ';' > goCount s ',') ∧
    (goCount s ';' ≤ goCount s ',' → detectSeparator s = ',') := by
  unfold detectSeparator
  by_cases h : goCount s ';' > goCount s ','
  · rw [if_pos h]
    exact ⟨⟨fun _ => h, fun _ => rfl⟩, fun hle => absurd h (not_lt.mpr hle)⟩
  · rw [if_neg h]
    exact ⟨⟨fun he => absurd he (by decide), fun hgt => absurd hgt h⟩, fun _ => rfl⟩

/-- Witness for C8 at concrete inputs. -/
theorem mp_separator_choice_witness :
    detectSeparator "a;b;c," = ';' ∧ detectSeparator "a;b,c," = ',' :=
  ⟨(mp_separator_choice "a;b;c,").1.mpr (by decide),
   (mp_separator_choice "a;b,c,").2 (by decide)⟩

/-- C10: a MercadoPago data row whose first cell is empty or whitespace is
skipped (no record, no error), regardless of where the detected columns are
and of the contents of the other cells; in the row loop it contributes
nothing. -/
theorem mp_first_cell_blank_skips_row (dateCol typeCol refCol amountCol : Nat)
    (accountID : String) (rowNum : Nat) (row : List String) (rest : List (List String))
    (h : trimStr (row.headD "") = "") :
    processMPRow dateCol typeCol refCol amountCol accountID rowNum row = .ok none ∧
    mpProcessRows dateCol typeCol refCol amountCol accountID rowNum (row :: rest) =
      mpProcessRows dateCol typeCol refCol amountCol accountID (rowNum + 1) rest := by
  have h1 : processMPRow dateCol typeCol refCol amountCol accountID rowNum row = .ok none := by
    unfold processMPRow
    rw [if_pos (Or.inr h)]
  exact ⟨h1, by rw [mpProcessRows, h1]⟩

/-- Witness for C10: the first cell is whitespace, the date column is
detected at index 1 and every needed cell is nonempty, yet the row is
skipped. -/
theorem mp_first_cell_blank_skips_row_witness :
    processMPRow 1 2 3 4 "acc" 5 ["  ", "01-01-2024", "Pago", "123", "100,00"] = .ok none :=
  (mp_first_cell_blank_skips_row 1 2 3 4 "acc" 5 ["  ", "01-01-2024", "Pago", "123", "100,00"]
    [] (by decide)).1

/-- C6: CSV-mode amount parsing of a string `D,dd` (optional leading minus,
then digits possibly grouped with dots, then a comma and decimal digits)
yields exactly the integer whose digits are `D` with the dots removed; the
decimal part is discarded and the sign is reapplied at the end. -/
theorem parseArgentineAmount_truncation (neg : Bool) (ip fr : List Char)
    (hne : ip ≠ []) (hip : ∀ c ∈ ip, c.isDigit = true ∨ c = '.')
    (hdig : ∃ c ∈ ip, c.isDigit = true) (hfr : ∀ c ∈ fr, c.isDigit = true) :
    parseArgentineAmount (String.mk ((if neg then ['-'] else []) ++ ip ++ ',' :: fr)) =
      .ok ((if neg then -1 else 1) * (digitsVal (ip.filter (fun c => c ≠ '.')) : ℚ)) := by
  obtain ⟨i0, ip2, rfl⟩ : ∃ i0 ip2, ip = i0 :: ip2 := by
    cases ip with
    | nil => cases hne rfl
    | cons a b => exact ⟨a, b, rfl⟩
  set ip := i0 :: ip2 with hipdef
  have hs : String.mk ((if neg then ['-'] else []) ++ ip ++ ',' :: fr) ≠ "" := by
    intro h
    have h2 := congrArg String.data h
    cases neg <;> simp [hipdef] at h2
  have hspace : ∀ c ∈ (if neg then ['-'] else []) ++ ip ++ ',' :: fr,
      (fun c => decide (c ≠ ' ')) c = true := by
    intro c hc
    simp only [decide_eq_true_eq]
    rcases List.mem_append.mp hc with hc1 | hc2
    · rcases List.mem_append.mp hc1 with hc3 | hc4
      · cases neg
        · simp at hc3
        · simp at hc3; subst hc3; decide
      · rcases hip c hc4 with hd | hd
        · exact digit_ne c ' ' hd (by decide)
        · subst hd; decide
    · rcases List.mem_cons.mp hc2 with hc3 | hc4
      · subst hc3; decide
      · exact digit_ne c ' ' (hfr c hc4) (by decide)
  have hfilter := List.filter_eq_self.mpr hspace
  set ipd := ip.filter (fun c => decide (c ≠ '.')) with hipd
  have hipd_digits : ∀ c ∈ ipd, c.isDigit = true := by
    intro c hc
    rw [hipd] at hc
    rcases List.mem_filter.mp hc with ⟨hc1, hc2⟩
    rcases hip c hc1 with hd | hd
    · exact hd
    · exfalso; rw [hd] at hc2; simp at hc2
  have hipd_ne : ipd ≠ [] := by
    rcases hdig with ⟨c, hc, hcd⟩
    have : c ∈ ipd := by
      rw [hipd]
      exact List.mem_filter.mpr ⟨hc, by
        simp only [decide_eq_true_eq]
        exact digit_ne c '.' hcd (by decide)⟩
    exact List.ne_nil_of_mem this
  have hfilterdot : (ip ++ ',' :: fr).filter (fun c => decide (c ≠ '.')) = ipd ++ ',' :: fr := by
    rw [List.filter_append]
    congr 1
    rw [List.filter_cons]
    simp only [decide_eq_true_eq]
    rw [if_pos (by decide : (',' : Char) ≠ '.')]
    congr 1
    refine List.filter_eq_self.mpr ?_
    intro c hc
    simp only [decide_eq_true_eq]
    exact digit_ne c '.' (hfr c hc) (by decide)
  have htakecomma : (ipd ++ ',' :: fr).takeWhile (fun c => decide (c ≠ ',')) = ipd := by
    refine takeWhile_append_cons _ ipd ',' fr ?_ (by simp)
    intro a ha
    simp only [decide_eq_true_eq]
    exact digit_ne a ',' (hipd_digits a ha) (by decide)
  have hgpf := goParseFloat_digits ipd hipd_ne hipd_digits
  cases neg
  · have hnotm : ¬((ip ++ ',' :: fr).head? = some '-') := by
      rw [hipdef]
      simp only [List.cons_append, List.head?_cons, Option.some.injEq]
      rcases hip i0 (by rw [hipdef]; exact List.mem_cons_self i0 ip2) with hd | hd
      · exact digit_ne i0 '-' hd (by decide)
      · subst hd; decide
    unfold parseArgentineAmount
    rw [if_neg hs]
    simp only [Bool.false_eq_true, if_false, List.nil_append] at hfilter ⊢
    rw [hfilter]
    simp only [if_neg hnotm]
    rw [hfilterdot, htakecomma, hgpf]
    simp
  · unfold parseArgentineAmount
    rw [if_neg hs]
    simp only [if_true, List.cons_append, List.nil_append] at hfilter ⊢
    rw [hfilter]
    have hcond : (('-' :: (ip ++ ',' :: fr)).head? = some '-') := rfl
    simp only [if_pos hcond]
    simp only [List.tail_cons]
    rw [hfilterdot, htakecomma, hgpf]
    simp

theorem char_ne_of_class (c : Char) (h : c.isDigit = true ∨ c = '.' ∨ c = ',' ∨ c = '-')
    (d : Char) (hd : d.isDigit = false) (h1 : ('.' : Char) ≠ d) (h2 : (',' : Char) ≠ d)
    (h3 : ('-' : Char) ≠ d) : c ≠ d := by
  rcases h with hc | hc | hc | hc
  · exact digit_ne c d hc hd
  · subst hc; exact h1
  · subst hc; exact h2
  · subst hc; exact h3

theorem goIsSpace_false_of_class (c : Char)
    (h : c.isDigit = true ∨ c = '.' ∨ c = ',' ∨ c = '-') : goIsSpace c = false := by
  rcases h with hc | hc | hc | hc
  · have n1 : c ≠ ' ' := digit_ne c ' ' hc (by decide)
    have n2 : c ≠ '\t' := digit_ne c '\t' hc (by decide)
    have n3 : c ≠ '\n' := digit_ne c '\n' hc (by decide)
    have n4 : c ≠ '\x0b' := digit_ne c '\x0b' hc (by decide)
    have n5 : c ≠ '\x0c' := digit_ne c '\x0c' hc (by decide)
    have n6 : c ≠ '\r' := digit_ne c '\r' hc (by decide)
    simp [goIsSpace, n1, n2, n3, n4, n5, n6]
  · subst hc; decide
  · subst hc; decide
  · subst hc; decide

theorem map_id_of_mem (f : Char → Char) :
    ∀ (l : List Char), (∀ c ∈ l, f c = c) → l.map f = l := by
  intro l h
  induction l with
  | nil => rfl
  | cons c t ih =>
    simp only [List.map_cons, h c (List.mem_cons_self c t)]
    rw [ih (fun a ha => h a (List.mem_cons_of_mem c ha))]

theorem filter_dot_groups (gs : List (List Char))
    (h : ∀ g ∈ gs, ∀ c ∈ g, c.isDigit = true) :
    ((gs.map (fun g => '.' :: g)).join).filter (fun c => decide (c ≠ '.')) = gs.join := by
  induction gs with
  | nil => rfl
  | cons g t ih =>
    simp only [List.map_cons, List.join_cons, List.filter_append, List.filter_cons]
    rw [if_neg (by simp)]
    rw [List.filter_eq_self.mpr (fun c hc => by
      simp only [decide_eq_true_eq]
      exact digit_ne c '.' (h g (List.mem_cons_self g t) c hc) (by decide))]
    rw [ih (fun g2 hg2 => h g2 (List.mem_cons_of_mem g hg2))]

/-- C7: spreadsheet-mode amount parsing of a string matching
`-?\d{1,3}(\.\d{3})*,\d{2}` succeeds and returns the mathematically
equivalent number: dots are thousands separators and the comma is the
decimal separator. -/
theorem parseSantanderAmount_roundtrip (neg : Bool) (g0 : List Char) (gs : List (List Char))
    (c1 c2 : Char) (hg0 : ∀ c ∈ g0, c.isDigit = true) (hg0ne : g0 ≠ [])
    (hg0len : g0.length ≤ 3) (hgs : ∀ g ∈ gs, (∀ c ∈ g, c.isDigit = true) ∧ g.length = 3)
    (hc1 : c1.isDigit = true) (hc2 : c2.isDigit = true) :
    parseSantanderAmount (String.mk ((if neg then ['-'] else []) ++ g0 ++
        (gs.map (fun g => '.' :: g)).join ++ ',' :: [c1, c2])) =
      .ok ((if neg then -1 else 1) *
        ((digitsVal (g0 ++ gs.join) : ℚ) + (digitsVal [c1, c2] : ℚ) / 100)) := by
  obtain ⟨i0, g02, rfl⟩ : ∃ i0 g02, g0 = i0 :: g02 := by
    cases g0 with
    | nil => cases hg0ne rfl
    | cons a b => exact ⟨a, b, rfl⟩
  simp only [List.append_assoc]
  set g0 := i0 :: g02 with hg0def
  set body := g0 ++ ((gs.map (fun g => '.' :: g)).join ++ ',' :: [c1, c2]) with hbody
  set cs := (if neg then ['-'] else []) ++ body with hcs
  have hclass : ∀ c ∈ cs, c.isDigit = true ∨ c = '.' ∨ c = ',' ∨ c = '-' := by
    intro c hc
    rw [hcs] at hc
    rcases List.mem_append.mp hc with hc1a | hc2a
    · cases neg
      · simp at hc1a
      · simp at hc1a; subst hc1a; exact Or.inr (Or.inr (Or.inr rfl))
    · rw [hbody] at hc2a
      rcases List.mem_append.mp hc2a with hc3 | hc4
      · exact Or.inl (hg0 c hc3)
      · rcases List.mem_append.mp hc4 with hc5 | hc6
        · rcases List.mem_join.mp hc5 with ⟨l, hl, hcl⟩
          rcases List.mem_map.mp hl with ⟨g, hg, hgl⟩
          rw [← hgl] at hcl
          rcases List.mem_cons.mp hcl with hc7 | hc8
          · exact Or.inr (Or.inl hc7)
          · exact Or.inl ((hgs g hg).1 c hc8)
        · rcases List.mem_cons.mp hc6 with hc7 | hc8
          · exact Or.inr (Or.inr (Or.inl hc7))
          · rcases List.mem_cons.mp hc8 with hc9 | hc10
            · subst hc9; exact Or.inl hc1
            · rcases List.mem_cons.mp hc10 with hc11 | hc12
              · subst hc11; exact Or.inl hc2
              · simp at hc12
  have hs : String.mk cs ≠ "" := by
    intro h
    have h2 := congrArg String.data h
    rw [hcs, hbody, hg0def] at h2
    cases neg <;> simp at h2
  have hfneS : ∀ (d : Char), d.isDigit = false → ('.' : Char) ≠ d → (',' : Char) ≠ d →
      ('-' : Char) ≠ d → (∀ c ∈ cs, (fun c => decide (c ≠ d)) c = true) := by
    intro d hd hne1 hne2 hne3 c hc
    simp only [decide_eq_true_eq]
    exact char_ne_of_class c (hclass c hc) d hd hne1 hne2 hne3
  have hf1 := List.filter_eq_self.mpr (hfneS '$' (by decide) (by decide) (by decide) (by decide))
  have hf2 := List.filter_eq_self.mpr (hfneS 'U' (by decide) (by decide) (by decide) (by decide))
  have hf3 := List.filter_eq_self.mpr (hfneS 'D' (by decide) (by decide) (by decide) (by decide))
  have hf4 := List.filter_eq_self.mpr (hfneS 'S' (by decide) (by decide) (by decide) (by decide))
  have hf5 := List.filter_eq_self.mpr (hfneS ' ' (by decide) (by decide) (by decide) (by decide))
  have htrim : trimChars cs = cs :=
    trimChars_no_space cs (fun c hc => goIsSpace_false_of_class c (hclass c hc))
  have hcs_ne : cs ≠ [] := by
    rw [hcs, hbody, hg0def]
    cases neg <;> simp
  have hfilterdot : body.filter (fun c => decide (c ≠ '.')) =
      (g0 ++ gs.join) ++ ',' :: [c1, c2] := by
    rw [hbody, List.filter_append, List.filter_append]
    rw [List.filter_eq_self.mpr (fun c hc => by
      simp only [decide_eq_true_eq]
      exact digit_ne c '.' (hg0 c hc) (by decide))]
    rw [filter_dot_groups gs (fun g hg => (hgs g hg).1)]
    rw [List.filter_cons, if_pos (by decide : ((fun c => decide (c ≠ '.')) ',' = true))]
    rw [List.filter_cons, if_pos (show (fun c => decide (c ≠ '.')) c1 = true by
      simp only [decide_eq_true_eq]
      exact digit_ne c1 '.' hc1 (by decide))]
    rw [List.filter_cons, if_pos (show (fun c => decide (c ≠ '.')) c2 = true by
      simp only [decide_eq_true_eq]
      exact digit_ne c2 '.' hc2 (by decide))]
    simp [List.append_assoc]
  have hmap : ((g0 ++ gs.join) ++ ',' :: [c1, c2]).map (fun c => if c = ',' then '.' else c) =
      (g0 ++ gs.join) ++ '.' :: [c1, c2] := by
    rw [List.map_append]
    rw [map_id_of_mem _ (g0 ++ gs.join) (fun c hc => by
      have hcd : c.isDigit = true := by
        rcases List.mem_append.mp hc with hca | hcb
        · exact hg0 c hca
        · rcases List.mem_join.mp hcb with ⟨l, hl, hcl⟩
          exact (hgs l hl).1 c hcl
      rw [if_neg (digit_ne c ',' hcd (by decide))])]
    simp only [List.map_cons, List.map_nil]
    rw [if_neg (digit_ne c1 ',' hc1 (by decide))]
    rw [if_neg (digit_ne c2 ',' hc2 (by decide))]
    simp
  have hjoin_digits : ∀ c ∈ g0 ++ gs.join, c.isDigit = true := by
    intro c hc
    rcases List.mem_append.mp hc with hca | hcb
    · exact hg0 c hca
    · rcases List.mem_join.mp hcb with ⟨l, hl, hcl⟩
      exact (hgs l hl).1 c hcl
  have hjoin_ne : g0 ++ gs.join ≠ [] := by rw [hg0def]; simp
  have hgpf := goParseFloat_point (g0 ++ gs.join) [c1, c2] hjoin_ne hjoin_digits
    (fun c hc => by
      rcases List.mem_cons.mp hc with h1 | h1
      · subst h1; exact hc1
      · rcases List.mem_cons.mp h1 with h2 | h2
        · subst h2; exact hc2
        · simp at h2)
  have hlen2 : ((10 : ℚ) ^ ([c1, c2] : List Char).length) = 100 := by norm_num
  clear_value g0 body cs
  cases neg
  · have hbody_eq : cs = body := by rw [hcs]; simp
    have hnotm : ¬(body.head? = some '-') := by
      rw [hbody, hg0def]
      simp only [List.cons_append, List.head?_cons, Option.some.injEq]
      exact digit_ne i0 '-' (hg0 i0 (by rw [hg0def]; exact List.mem_cons_self i0 g02)) (by decide)
    unfold parseSantanderAmount
    rw [if_neg hs]
    simp only [String.data]
    rw [hf1, hf2, hf3, hf4, hf5, htrim]
    rw [hbody_eq] at hcs_ne ⊢
    rw [if_neg hcs_ne]
    simp only [if_neg hnotm, hfilterdot, hmap, hgpf]
    rw [hlen2]
    simp
  · have hcons : cs = '-' :: body := by rw [hcs]; simp
    unfold parseSantanderAmount
    rw [if_neg hs]
    simp only [String.data]
    rw [hf1, hf2, hf3, hf4, hf5, htrim]
    rw [hcons] at hcs_ne ⊢
    rw [if_neg hcs_ne]
    have hcond : (('-' :: body).head? = some '-') := rfl
    simp only [if_pos hcond, List.tail_cons]
    simp only [hfilterdot, hmap, hgpf]
    rw [hlen2]
    simp

/-- Witness for C7 at the documented example: "-24.000,50" parses to the
mathematical value -24000.5. -/
theorem parseSantanderAmount_roundtrip_witness :
    parseSantanderAmount (String.mk ((if true then ['-'] else []) ++ ['2', '4'] ++
        (([['0', '0', '0']].map (fun g => '.' :: g)).join) ++ ',' :: ['5', '0'])) =
      .ok ((if true then -1 else 1) *
        ((digitsVal (['2', '4'] ++ ([['0', '0', '0']] : List (List Char)).join) : ℚ) +
          (digitsVal ['5', '0'] : ℚ) / 100)) :=
  parseSantanderAmount_roundtrip true ['2', '4'] [['0', '0', '0']] '5' '0' (by decide)
    (by decide) (by decide) (by decide) (by decide) (by decide)

theorem trimStr_ne_sep (s : String) : trimStr s ≠ " - " := by
  intro h
  have h2 := congrArg String.data h
  have h3 : (" - ").data = [' ', '-', ' '] := by decide
  rw [h3] at h2
  have h4 : trimChars s.data = [' ', '-', ' '] := h2
  have h5 := trimChars_head_not_space s.data ' ' ['-', ' '] h4
  exact absurd h5 (by decide)

theorem append_sep_ne (t r : String) (hr : r ≠ "") :
    t ++ " - " ++ r ≠ "" ∧ t ++ " - " ++ r ≠ " - " := by
  have h3 : (" - ").length = 3 := by decide
  have hlen : (t ++ " - " ++ r).length = t.length + 3 + r.length := by
    rw [String.length_append, String.length_append, h3]
  have hrdata : r.data ≠ [] := by
    intro h2; exact hr (String.ext (by simp [h2]))
  have hrlen : 0 < r.length := by
    have he : r.length = r.data.length := rfl
    rw [he]; exact List.length_pos.mpr hrdata
  constructor
  · intro h
    have h2 := congrArg String.length h
    rw [hlen] at h2
    have h0 : ("" : String).length = 0 := by decide
    rw [h0] at h2
    omega
  · intro h
    have h2 := congrArg String.length h
    rw [hlen, h3] at h2
    omega

/-- C9 (amended): in a MercadoPago data row that reaches the
description-building step, the record description is
`"{cleaned type} - {reference id}"` whenever the reference id is nonempty —
including the case of an empty cleaned type, where the leading `" - "`
separator is retained (the description is `" - {reference id}"`, not the
bare reference id) — and is exactly the cleaned type when the reference id
is empty; the row yields no record exactly when both parts are empty. -/
theorem mp_description_cases (dateCol typeCol refCol amountCol : Nat) (accountID : String)
    (rowNum : Nat) (row : List String) (d : ℤ) (a : ℚ)
    (h1 : ¬(row.length = 0 ∨ trimStr (row.headD "") = ""))
    (h2 : ¬(row.length ≤ max (max dateCol typeCol) (max refCol amountCol)))
    (h3 : trimStr (row.getD dateCol "") ≠ "")
    (h4 : parseMPDate (trimStr (row.getD dateCol "")) = some d)
    (h5 : parseArgentineAmount (trimStr (row.getD amountCol "")) = .ok a) :
    (cleanTransactionType (row.getD typeCol "") ≠ "" ∨ trimStr (row.getD refCol "") ≠ "" →
      processMPRow dateCol typeCol refCol amountCol accountID rowNum row =
        .ok (some ⟨d + 1,
          buildMPDescription (cleanTransactionType (row.getD typeCol ""))
            (trimStr (row.getD refCol "")), a, Currency.ARS, accountID⟩)) ∧
    (cleanTransactionType (row.getD typeCol "") = "" ∧ trimStr (row.getD refCol "") = "" →
      processMPRow dateCol typeCol refCol amountCol accountID rowNum row = .ok none) ∧
    (∀ t r : String, r ≠ "" → buildMPDescription t r = t ++ " - " ++ r) ∧
    (∀ t : String, buildMPDescription t "" = t) := by
  refine ⟨?_, ?_, ?_, ?_⟩
  · intro hor
    have hguard : ¬(buildMPDescription (cleanTransactionType (row.getD typeCol ""))
        (trimStr (row.getD refCol "")) = "" ∨
        buildMPDescription (cleanTransactionType (row.getD typeCol ""))
          (trimStr (row.getD refCol "")) = " - ") := by
      by_cases hr : trimStr (row.getD refCol "") = ""
      · have ht : cleanTransactionType (row.getD typeCol "") ≠ "" := by
          rcases hor with h | h
          · exact h
          · exact absurd hr h
        rw [show buildMPDescription (cleanTransactionType (row.getD typeCol ""))
            (trimStr (row.getD refCol "")) = cleanTransactionType (row.getD typeCol "") from by
          simp only [buildMPDescription]
          rw [if_neg (not_not_intro hr)]]
        push_neg
        exact ⟨ht, trimStr_ne_sep _⟩
      · rw [show buildMPDescription (cleanTransactionType (row.getD typeCol ""))
            (trimStr (row.getD refCol "")) = cleanTransactionType (row.getD typeCol "") ++
              " - " ++ trimStr (row.getD refCol "") from by
          simp only [buildMPDescription]
          rw [if_pos hr]]
        push_neg
        exact append_sep_ne _ _ hr
    simp only [processMPRow, if_neg h1, if_neg h2, if_neg h3, h4, if_neg hguard, h5]
  · intro ⟨ht, hr⟩
    have hguard : buildMPDescription (cleanTransactionType (row.getD typeCol ""))
        (trimStr (row.getD refCol "")) = "" := by
      simp only [buildMPDescription]
      rw [if_neg (not_not_intro hr)]
      exact ht
    simp only [processMPRow, if_neg h1, if_neg h2, if_neg h3, h4, if_pos (Or.inl hguard)]
  · intro t r hr
    simp only [buildMPDescription]
    rw [if_pos hr]
  · intro t
    simp only [buildMPDescription]
    rw [if_neg (by simp)]

/-- Counterexample for C9 as stated: a row whose transaction type cleans to
the empty string and whose reference id is "123" gets the description
" - 123" (leading separator retained), not the bare "123" the claim
prescribes. -/
theorem mp_description_sep_retained_cex :
    (mercadoPagoParse
      [["m1"], ["m2"], ["m3"],
       ["RELEASE_DATE", "TRANSACTION_TYPE", "REFERENCE_ID", "TRANSACTION_NET_AMOUNT"],
       ["01-01-2024", "Transferencia enviada", "123", "100,00"]] "acc").map
      (fun b => b.records.map (fun r => r.description)) = .ok [" - 123"] := by decide

/-- Witness for C9 (amended) at a concrete row with empty cleaned type and
reference id "123". -/
theorem mp_description_cases_witness :
    processMPRow 0 1 2 3 "acc" 5 ["01-01-2024", "Transferencia enviada", "123", "100,00"] =
      .ok (some ⟨daysSinceExcelEpoch 2024 1 1 + 1,
        buildMPDescription
          (cleanTransactionType
            (["01-01-2024", "Transferencia enviada", "123", "100,00"].getD 1 ""))
          (trimStr (["01-01-2024", "Transferencia enviada", "123", "100,00"].getD 2 "")),
        100, Currency.ARS, "acc"⟩) :=
  (mp_description_cases 0 1 2 3 "acc" 5
    ["01-01-2024", "Transferencia enviada", "123", "100,00"]
    (daysSinceExcelEpoch 2024 1 1) 100 (by decide) (by decide) (by decide) (by decide)
    (by decide)).1 (by decide)

/-- C1 (amended): a malformed amount cell in a MercadoPago data row is fatal
to the whole parse, exactly like a malformed date: when the rows before it
process without error, the row loop returns the amount error for that row,
discarding all records; and a row that reaches the amount step with a
failing amount cell produces that error. -/
theorem mp_amount_error_fatal :
    (∀ (dateCol typeCol refCol amountCol : Nat) (accountID : String) (rowNum : Nat)
      (pre : List (List String)) (row : List String) (rest : List (List String))
      (L : List Record) (e : String),
      mpProcessRows dateCol typeCol refCol amountCol accountID rowNum pre = .ok L →
      processMPRow dateCol typeCol refCol amountCol accountID (rowNum + pre.length) row =
        .error e →
      mpProcessRows dateCol typeCol refCol amountCol accountID rowNum (pre ++ row :: rest) =
        .error e) ∧
    (∀ (dateCol typeCol refCol amountCol : Nat) (accountID : String) (rowNum : Nat)
      (row : List String) (d : ℤ) (e : String),
      ¬(row.length = 0 ∨ trimStr (row.headD "") = "") →
      ¬(row.length ≤ max (max dateCol typeCol) (max refCol amountCol)) →
      trimStr (row.getD dateCol "") ≠ "" →
      parseMPDate (trimStr (row.getD dateCol "")) = some d →
      ¬(buildMPDescription (cleanTransactionType (row.getD typeCol ""))
          (trimStr (row.getD refCol "")) = "" ∨
        buildMPDescription (cleanTransactionType (row.getD typeCol ""))
          (trimStr (row.getD refCol "")) = " - ") →
      parseArgentineAmount (trimStr (row.getD amountCol "")) = .error e →
      processMPRow dateCol typeCol refCol amountCol accountID rowNum row =
        .error ("failed to parse amount in row " ++ toString rowNum ++ ": " ++ e)) := by
  constructor
  · intro dateCol typeCol refCol amountCol accountID rowNum pre
    induction pre generalizing rowNum with
    | nil =>
      intro row rest L e hpre hrow
      simp only [List.length_nil, Nat.add_zero] at hrow
      simp only [List.nil_append, mpProcessRows, hrow]
    | cons p ps ih =>
      intro row rest L e hpre hrow
      rw [mpProcessRows] at hpre
      rcases hp : processMPRow dateCol typeCol refCol amountCol accountID rowNum p with
        e2 | r?
      · rw [hp] at hpre; cases hpre
      · rw [hp] at hpre
        cases r? with
        | none =>
          rcases hps : mpProcessRows dateCol typeCol refCol amountCol accountID
              (rowNum + 1) ps with e2 | L2
          · rw [hps] at hpre; cases hpre
          · have hrow2 : processMPRow dateCol typeCol refCol amountCol accountID
                ((rowNum + 1) + ps.length) row = .error e := by
              have harith : (rowNum + 1) + ps.length = rowNum + (p :: ps).length := by
                simp [List.length_cons]; omega
              rw [harith]; exact hrow
            have hrec := ih (rowNum + 1) row rest L2 e hps hrow2
            simp only [List.cons_append, mpProcessRows, hp]
            exact hrec
        | some r =>
          rcases hps : mpProcessRows dateCol typeCol refCol amountCol accountID
              (rowNum + 1) ps with e2 | L2
          · rw [hps] at hpre; cases hpre
          · have hrow2 : processMPRow dateCol typeCol refCol amountCol accountID
                ((rowNum + 1) + ps.length) row = .error e := by
              have harith : (rowNum + 1) + ps.length = rowNum + (p :: ps).length := by
                simp [List.length_cons]; omega
              rw [harith]; exact hrow
            have hrec := ih (rowNum + 1) row rest L2 e hps hrow2
            simp only [List.cons_append, mpProcessRows, hp]
            have hrec2 : mpProcessRows dateCol typeCol refCol amountCol accountID
                (rowNum + 1) (ps.append (row :: rest)) = .error e := hrec
            rw [hrec2]
  · intro dateCol typeCol refCol amountCol accountID rowNum row d e h1 h2 h3 h4 hg h6
    simp only [processMPRow, if_neg h1, if_neg h2, if_neg h3, h4, if_neg hg, h6]

/-- Counterexample for C1 as stated: a MercadoPago file whose first data row
has the malformed amount "abc" (and a following fully valid data row) makes
the whole parse fail instead of skipping just that row. -/
theorem mp_amount_error_not_recovered_cex :
    mercadoPagoParse
      [["m1"], ["m2"], ["m3"],
       ["RELEASE_DATE", "TRANSACTION_TYPE", "REFERENCE_ID", "TRANSACTION_NET_AMOUNT"],
       ["01-01-2024", "Pago", "123", "abc"],
       ["02-01-2024", "Pago", "456", "100,00"]] "acc" =
      .error "failed to parse amount in row 5: failed to parse amount" := by decide

/-- Witness for C1 (amended): a valid first data row followed by a row with
amount cell "x" makes the loop return the amount error for row 6. -/
theorem mp_amount_error_fatal_witness :
    mpProcessRows 0 1 2 3 "acc" 5
      ([["01-01-2024", "Pago", "1", "1,00"]] ++
        ["02-01-2024", "Pago", "2", "x"] :: []) =
      .error "failed to parse amount in row 6: failed to parse amount" :=
  mp_amount_error_fatal.1 0 1 2 3 "acc" 5 [["01-01-2024", "Pago", "1", "1,00"]]
    ["02-01-2024", "Pago", "2", "x"] []
    [⟨daysSinceExcelEpoch 2024 1 1 + 1, "Pago - 1", 1, Currency.ARS, "acc"⟩]
    "failed to parse amount in row 6: failed to parse amount" (by decide) (by decide)

theorem amountCell_nonzero (date : ℤ) (desc cell accountID : String) (cur : Currency)
    (r : Record)
    (h : r ∈ (if cell ≠ "" then
        match parseSantanderAmount cell with
        | .ok a => if a ≠ 0 then [(⟨date, desc, -a, cur, accountID⟩ : Record)] else []
        | .error _ => []
      else [])) : r.amount ≠ 0 := by
  by_cases hc : cell ≠ ""
  · rw [if_pos hc] at h
    revert h
    rcases hp : parseSantanderAmount cell with e | a <;> intro h
    · simp at h
    · have h2 : r ∈ (if a ≠ 0 then [(⟨date, desc, -a, cur, accountID⟩ : Record)] else []) := h
      by_cases ha : a ≠ 0
      · rw [if_pos ha] at h2
        have hr := List.mem_singleton.mp h2
        subst hr
        exact neg_ne_zero.mpr ha
      · rw [if_neg ha] at h2; simp at h2
  · rw [if_neg hc] at h; simp at h

theorem sectionLoop_nonzero (dateCol descCol cuotasCol comprobanteCol arsCol usdCol : Nat)
    (accountID : String) :
    ∀ (rows : List (List String)) (i : Nat) (lv : ℤ) (r : Record),
      r ∈ (sectionLoop dateCol descCol cuotasCol comprobanteCol arsCol usdCol accountID
        rows i lv).1 → r.amount ≠ 0 := by
  intro rows
  induction rows with
  | nil => intro i lv r h; rw [sectionLoop] at h; simp at h
  | cons row rest ih =>
    intro i lv r h
    cases row with
    | nil => rw [sectionLoop] at h; simp at h
    | cons c0 cells =>
      rw [sectionLoop] at h
      split at h
      · simp at h
      · split at h
        · exact ih _ _ r h
        · split at h
          · exact ih _ _ r h
          · split at h
            · exact ih _ _ r h
            · simp only [] at h
              rcases List.mem_append.mp h with h2 | h2
              · unfold rowAmountRecords at h2
                rcases List.mem_append.mp h2 with h3 | h3
                · exact amountCell_nonzero _ _ _ _ Currency.ARS r h3
                · exact amountCell_nonzero _ _ _ _ Currency.USD r h3
              · exact ih _ _ r h2

/-- C2 (amended): every record emitted by the Santander section parser has a
nonzero amount (a zero parsed amount in either currency cell emits no
record); the MercadoPago parser, in contrast, has no zero-amount check and
does emit zero-amount records. -/
theorem santander_amounts_nonzero (rows : List (List String)) (startRow : Nat)
    (accountID : String) (r : Record) (h : r ∈ (parseSection rows startRow accountID).1) :
    r.amount ≠ 0 := by
  simp only [parseSection] at h
  exact sectionLoop_nonzero _ _ _ _ _ _ accountID _ _ _ r h

/-- Counterexample for C2 as stated: a MercadoPago data row whose amount cell
"0,99" normalizes to zero still emits a record, and that record has amount
0 in the returned batch. -/
theorem mp_zero_amount_emitted_cex :
    (mercadoPagoParse
      [["m1"], ["m2"], ["m3"],
       ["RELEASE_DATE", "TRANSACTION_TYPE", "REFERENCE_ID", "TRANSACTION_NET_AMOUNT"],
       ["01-01-2024", "Pago", "123", "0,99"]] "acc").map
      (fun b => b.records.map (fun r => r.amount)) = .ok [0] := by decide

/-- Witness for C2 (amended): the record emitted from a concrete Santander
section row has nonzero amount. -/
theorem santander_amounts_nonzero_witness :
    (⟨daysSinceExcelEpoch 2024 6 2, "Supermercado - 1/3 - 00123", -3000,
      Currency.ARS, "acc"⟩ : Record).amount ≠ 0 :=
  santander_amounts_nonzero
    [["01/06/2024", "Supermercado", "1/3", "00123", "$3.000,00", ""]] 0 "acc"
    ⟨daysSinceExcelEpoch 2024 6 2, "Supermercado - 1/3 - 00123", -3000,
      Currency.ARS, "acc"⟩ (by decide)

/-- C3 (amended): in the Santander section row loop, a row with at least one
cell whose cells are all blank is skipped and never terminates the section;
but a zero-length row terminates the section exactly like a row whose first
cell matches the section-start pattern, and like exhaustion of the rows.
Data rows after a whitespace-only row are still processed, while rows after
a zero-length row are not. -/
theorem santander_blank_row_semantics (dateCol descCol cuotasCol comprobanteCol arsCol
      usdCol : Nat) (accountID : String) (rest : List (List String)) (i : Nat) (lv : ℤ)
    (c0 : String) (cells : List String) :
    (sectionLoop dateCol descCol cuotasCol comprobanteCol arsCol usdCol accountID
      [] i lv = ([], i)) ∧
    (sectionLoop dateCol descCol cuotasCol comprobanteCol arsCol usdCol accountID
      ([] :: rest) i lv = ([], i)) ∧
    (sectionPatternMatch c0 = true →
      sectionLoop dateCol descCol cuotasCol comprobanteCol arsCol usdCol accountID
        ((c0 :: cells) :: rest) i lv = ([], i)) ∧
    (isEmptyRow (c0 :: cells) = true →
      sectionLoop dateCol descCol cuotasCol comprobanteCol arsCol usdCol accountID
        ((c0 :: cells) :: rest) i lv =
      sectionLoop dateCol descCol cuotasCol comprobanteCol arsCol usdCol accountID
        rest (i + 1) lv) := by
  refine ⟨by rw [sectionLoop], by rw [sectionLoop], ?_, ?_⟩
  · intro hpat
    rw [sectionLoop, if_pos hpat]
  · intro hemp
    have hc0 : trimStr c0 = "" := by
      have := hemp
      simp only [isEmptyRow, List.all_cons, Bool.and_eq_true, beq_iff_eq] at this
      exact this.1
    have hc0chars : ∀ c ∈ c0.data, goIsSpace c = true := by
      have h2 := congrArg String.data hc0
      have h3 : trimChars c0.data = [] := h2
      exact trimChars_all_space c0.data h3
    have hpat : sectionPatternMatch c0 = false := sectionPatternMatch_space c0 hc0chars
    rw [sectionLoop, if_neg (by rw [hpat]; exact Bool.false_ne_true), if_pos hemp]

/-- Counterexample for C3 as stated: a zero-length row between two data rows
terminates the section, so the data row after it is not emitted even though
no section marker intervenes. -/
theorem santander_blank_row_terminates_cex :
    parseSection
      [["01/01/2024", "A", "", "", "$1,00", ""], [],
       ["02/01/2024", "B", "", "", "$2,00", ""]] 0 "acc" =
    ([⟨daysSinceExcelEpoch 2024 1 1 + 1, "A", -1, Currency.ARS, "acc"⟩], 1) := by decide

/-- Witness for C3 (amended): a whitespace-only one-cell row is skipped, the
loop continuing at the next row. -/
theorem santander_blank_row_semantics_witness :
    sectionLoop 0 1 2 3 4 5 "a" ([" "] :: [["01/01/2024", "A", "", "", "$1,00", ""]])
      7 zeroTimeDays =
    sectionLoop 0 1 2 3 4 5 "a" [["01/01/2024", "A", "", "", "$1,00", ""]] (7 + 1)
      zeroTimeDays :=
  (santander_blank_row_semantics 0 1 2 3 4 5 "a"
    [["01/01/2024", "A", "", "", "$1,00", ""]] 7 zeroTimeDays " " []).2.2.2 (by decide)

theorem combineRes_zero (b : ImportResult) : combineRes ⟨0, 0, 0, 0, []⟩ b = b := by
  cases b; simp [combineRes]

theorem combineRes_assoc (a b c : ImportResult) :
    combineRes (combineRes a b) c = combineRes a (combineRes b c) := by
  cases a; cases b; cases c
  simp [combineRes, Nat.add_assoc, List.append_assoc]

/-- C4: for every sink behavior and every batch, the reconciler visits every
record exactly once and never aborts: the counts satisfy
imported + duplicate + failed = total = batch length, exactly one error
string is appended per failed record, the loop distributes over batch
concatenation in record order, and a record whose existence check reports
true or errors, or whose insert errors, never counts as imported. -/
theorem import_reconciler_spec {σ : Type} (sink : Sink σ) (s : σ) :
    (∀ recs : List Record,
      (importRecords sink s recs).1.importedRecords +
        (importRecords sink s recs).1.duplicateRecords +
        (importRecords sink s recs).1.failedRecords = recs.length ∧
      (importRecords sink s recs).1.totalRecords = recs.length ∧
      (importRecords sink s recs).1.errors.length =
        (importRecords sink s recs).1.failedRecords) ∧
    (∀ xs ys : List Record,
      importRecords sink s (xs ++ ys) =
        (combineRes (importRecords sink s xs).1
          (importRecords sink (importRecords sink s xs).2 ys).1,
         (importRecords sink (importRecords sink s xs).2 ys).2)) ∧
    (∀ r : Record, sink.existsCheck s r.date r.description r.amount = .ok true →
      importRecords sink s [r] = (⟨1, 0, 1, 0, []⟩, s)) ∧
    (∀ (r : Record) (e : String),
      sink.existsCheck s r.date r.description r.amount = .error e →
      importRecords sink s [r] =
        (⟨1, 0, 0, 1, ["Failed to check duplicate for record: " ++ e]⟩, s)) ∧
    (∀ (r : Record) (e : String),
      sink.existsCheck s r.date r.description r.amount = .ok false →
      sink.create s r = .error e →
      importRecords sink s [r] =
        (⟨1, 0, 0, 1, ["Failed to create record: " ++ e]⟩, s)) ∧
    (∀ (r : Record) (s1 : σ),
      sink.existsCheck s r.date r.description r.amount = .ok false →
      sink.create s r = .ok s1 →
      importRecords sink s [r] = (⟨1, 1, 0, 0, []⟩, s1)) := by
  have hcounts : ∀ (recs : List Record) (s0 : σ),
      (importRecords sink s0 recs).1.importedRecords +
        (importRecords sink s0 recs).1.duplicateRecords +
        (importRecords sink s0 recs).1.failedRecords = recs.length ∧
      (importRecords sink s0 recs).1.totalRecords = recs.length ∧
      (importRecords sink s0 recs).1.errors.length =
        (importRecords sink s0 recs).1.failedRecords := by
    intro recs
    induction recs with
    | nil => intro s0; simp [importRecords]
    | cons r rs ih =>
      intro s0
      rw [importRecords]
      rcases he : sink.existsCheck s0 r.date r.description r.amount with e | b
      · rcases ih s0 with ⟨ha, hb, hc⟩
        refine ⟨?_, ?_, ?_⟩ <;> simp [combineRes] <;> omega
      · cases b
        · rcases hcr : sink.create s0 r with e | s1
          · rcases ih s0 with ⟨ha, hb, hc⟩
            refine ⟨?_, ?_, ?_⟩ <;> simp [combineRes] <;> omega
          · rcases ih s1 with ⟨ha, hb, hc⟩
            refine ⟨?_, ?_, ?_⟩ <;> simp [combineRes] <;> omega
        · rcases ih s0 with ⟨ha, hb, hc⟩
          refine ⟨?_, ?_, ?_⟩ <;> simp [combineRes] <;> omega
  have happend : ∀ (xs : List Record) (s0 : σ) (ys : List Record),
      importRecords sink s0 (xs ++ ys) =
        (combineRes (importRecords sink s0 xs).1
          (importRecords sink (importRecords sink s0 xs).2 ys).1,
         (importRecords sink (importRecords sink s0 xs).2 ys).2) := by
    intro xs
    induction xs with
    | nil =>
      intro s0 ys
      simp only [List.nil_append, importRecords, combineRes_zero]
    | cons x xs2 ih =>
      intro s0 ys
      rcases he : sink.existsCheck s0 x.date x.description x.amount with e | b
      · simp only [List.cons_append, importRecords, he]
        have ihx : importRecords sink s0 (xs2.append ys) =
            (combineRes (importRecords sink s0 xs2).1
              (importRecords sink (importRecords sink s0 xs2).2 ys).1,
             (importRecords sink (importRecords sink s0 xs2).2 ys).2) := ih s0 ys
        rw [ihx]
        simp [combineRes_assoc]
      · cases b
        · rcases hcr : sink.create s0 x with e | s1
          · simp only [List.cons_append, importRecords, he, hcr]
            have ihx : importRecords sink s0 (xs2.append ys) =
                (combineRes (importRecords sink s0 xs2).1
                  (importRecords sink (importRecords sink s0 xs2).2 ys).1,
                 (importRecords sink (importRecords sink s0 xs2).2 ys).2) := ih s0 ys
            rw [ihx]
            simp [combineRes_assoc]
          · simp only [List.cons_append, importRecords, he, hcr]
            have ihx : importRecords sink s1 (xs2.append ys) =
                (combineRes (importRecords sink s1 xs2).1
                  (importRecords sink (importRecords sink s1 xs2).2 ys).1,
                 (importRecords sink (importRecords sink s1 xs2).2 ys).2) := ih s1 ys
            rw [ihx]
            simp [combineRes_assoc]
        · simp only [List.cons_append, importRecords, he]
          have ihx : importRecords sink s0 (xs2.append ys) =
              (combineRes (importRecords sink s0 xs2).1
                (importRecords sink (importRecords sink s0 xs2).2 ys).1,
               (importRecords sink (importRecords sink s0 xs2).2 ys).2) := ih s0 ys
          rw [ihx]
          simp [combineRes_assoc]
  refine ⟨fun recs => hcounts recs s, fun xs ys => happend xs s ys, ?_, ?_, ?_, ?_⟩
  · intro r he
    simp [importRecords, he, combineRes]
  · intro r e he
    simp [importRecords, he, combineRes]
  · intro r e he hcr
    simp [importRecords, he, hcr, combineRes]
  · intro r s1 he hcr
    simp [importRecords, he, hcr, combineRes]

/-- Witness for C4 applied to the SQLite sink: a record whose triple already
exists in the table is counted as duplicate, not imported. -/
theorem import_reconciler_spec_witness :
    importRecords sqliteSink [⟨0, "x", 5, Currency.ARS, "a"⟩]
      [⟨0, "x", 5, Currency.ARS, "a"⟩] =
      (⟨1, 0, 1, 0, []⟩, [⟨0, "x", 5, Currency.ARS, "a"⟩]) :=
  (import_reconciler_spec sqliteSink [⟨0, "x", 5, Currency.ARS, "a"⟩]).2.2.1
    ⟨0, "x", 5, Currency.ARS, "a"⟩ (by decide)

/-- C5: deduplication identity is exactly the (date, description, amount)
triple: the SQLite existence check depends only on that triple, inserting a
record makes any record with the same triple count as existing, and the
reconciler treats a record with the same triple as an already-imported one
as a duplicate regardless of its currency or accountId. -/
theorem dedup_identity_triple :
    (∀ (tbl : List Record) (r1 r2 : Record), r1.date = r2.date →
      r1.description = r2.description → r1.amount = r2.amount →
      sqliteExists tbl r1.date r1.description r1.amount =
        sqliteExists tbl r2.date r2.description r2.amount) ∧
    (∀ (tbl : List Record) (r1 r2 : Record), r1.date = r2.date →
      r1.description = r2.description → r1.amount = r2.amount →
      sqliteExists (tbl ++ [r1]) r2.date r2.description r2.amount = true) ∧
    (∀ (r1 r2 : Record), r1.date = r2.date → r1.description = r2.description →
      r1.amount = r2.amount →
      (importRecords sqliteSink [] [r1, r2]).1 = ⟨2, 1, 1, 0, []⟩) := by
  refine ⟨?_, ?_, ?_⟩
  · intro tbl r1 r2 h1 h2 h3
    rw [h1, h2, h3]
  · intro tbl r1 r2 h1 h2 h3
    unfold sqliteExists
    rw [List.any_append]
    simp [← h1, ← h2, ← h3]
  · intro r1 r2 h1 h2 h3
    have hex1 : sqliteSink.existsCheck [] r1.date r1.description r1.amount = .ok false := rfl
    have hcr1 : sqliteSink.create [] r1 = .ok [r1] := by
      show sqliteCreate [] r1 = .ok [r1]
      unfold sqliteCreate
      rw [if_neg (by simp [sqliteExists])]
      rfl
    have hex2 : sqliteSink.existsCheck [r1] r2.date r2.description r2.amount = .ok true := by
      show Except.ok (sqliteExists [r1] r2.date r2.description r2.amount) = .ok true
      unfold sqliteExists
      simp [← h1, ← h2, ← h3]
    simp [importRecords, hex1, hcr1, hex2, combineRes]

/-- Witness for C5: two records agreeing on (date, description, amount) but
differing in both currency and accountId; the second is deduplicated. -/
theorem dedup_identity_triple_witness :
    (importRecords sqliteSink []
      [⟨0, "x", 5, Currency.ARS, "a"⟩, ⟨0, "x", 5, Currency.USD, "b"⟩]).1 =
      ⟨2, 1, 1, 0, []⟩ :=
  dedup_identity_triple.2.2 ⟨0, "x", 5, Currency.ARS, "a"⟩ ⟨0, "x", 5, Currency.USD, "b"⟩
    rfl rfl rfl

/-- Witness for C6 at the documented example: "1.809,99" parses to 1809. -/
theorem parseArgentineAmount_truncation_witness :
    parseArgentineAmount
        (String.mk ((if false then ['-'] else []) ++ ['1', '.', '8', '0', '9'] ++ ',' :: ['9', '9'])) =
      .ok ((if false then -1 else 1) *
        (digitsVal (['1', '.', '8', '0', '9'].filter (fun c => c ≠ '.')) : ℚ)) :=
  parseArgentineAmount_truncation false ['1', '.', '8', '0', '9'] ['9', '9'] (by decide)
    (by decide) (by decide) (by decide)

end MPClean
